import Mathlib

/-!
Verification development for the library-dependencies-extractor tool.

The Go program walks a set of on-disk libraries, probes each one by
compiling a synthetic sketch, classifies the libraries the build pipeline
imported, and writes the externally-distributed ones back into the
`Requires` field of the catalog (`library_index.json`), keeping a
processed-cache (`cached_results.json`) so interrupted batch runs can
resume.  The definitions below are a shallow embedding of `main.go`
(the variant with the classifier and the processed cache); external
collaborators (the arduino builder, the JSON codec, the Jaro-Winkler
metric) enter as oracle parameters.
-/

/-- Go `strings.Contains s sub`: `sub` occurs as a contiguous substring of
`s`.  Modelled on lists of characters: some suffix of `s` starts with
`sub`. -/
def goContains (s sub : String) : Bool :=
  s.toList.tails.any (fun t => sub.toList.isPrefixOf t)

/-- Go `filepath.Base`: the portion of a path after the final slash. -/
def goBase (p : String) : String :=
  String.mk ((p.toList.reverse.takeWhile (· ≠ '/')).reverse)

/-- Go `filepath.Ext`: the suffix of the base name starting at the final
dot, or the empty string when the base name has no dot. -/
def goExt (p : String) : String :=
  if '.' ∈ (goBase p).toList then
    String.mk ('.' :: ((goBase p).toList.reverse.takeWhile (· ≠ '.')).reverse)
  else ""

/-- One entry of `ctx.ImportedLibraries` as reported by the build
pipeline: its canonical (real) name and its on-disk folder. -/
structure ImportedLib where
  realName : String
  folder : String
deriving DecidableEq, Repr

/-- The classification loop of `main` (lines 349-357 and 392-400 of the
source): walk the imported libraries, skip the probed library itself and
names already classified, and append each remaining name to `deps`
(externally distributed) when its folder contains
`ctx.OtherLibrariesFolders[0]` as a substring, else to `internal_deps`.
Indexing `OtherLibrariesFolders[0]` with an empty folder list is a Go
panic, rendered here as `none`. -/
def classifyImports (selfName : String) (roots : List String)
    (acc : List String × List String) :
    List ImportedLib → Option (List String × List String)
  | [] => some acc
  | dep :: rest =>
    if dep.realName ≠ selfName ∧ dep.realName ∉ acc.1 ∧ dep.realName ∉ acc.2 then
      match roots with
      | [] => none
      | root :: _ =>
        if goContains dep.folder root then
          classifyImports selfName roots (acc.1 ++ [dep.realName], acc.2) rest
        else
          classifyImports selfName roots (acc.1, acc.2 ++ [dep.realName]) rest
    else classifyImports selfName roots acc rest

/-- Total version of the classification loop for a nonempty folder list,
used to reason about `classifyImports` when no panic can occur. -/
def classifyPure (selfName root : String) :
    List String × List String → List ImportedLib → List String × List String
  | acc, [] => acc
  | acc, dep :: rest =>
    if dep.realName ≠ selfName ∧ dep.realName ∉ acc.1 ∧ dep.realName ∉ acc.2 then
      if goContains dep.folder root then
        classifyPure selfName root (acc.1 ++ [dep.realName], acc.2) rest
      else
        classifyPure selfName root (acc.1, acc.2 ++ [dep.realName]) rest
    else classifyPure selfName root acc rest

theorem classifyImports_eq_pure (selfName root : String) (rs : List String)
    (imports : List ImportedLib) (acc : List String × List String) :
    classifyImports selfName (root :: rs) acc imports =
      some (classifyPure selfName root acc imports) := by
  induction imports generalizing acc with
  | nil => rfl
  | cons dep rest ih =>
    simp only [classifyImports, classifyPure]
    split
    · split <;> exact ih _
    · exact ih _

/-- The imported-library lists accumulated across a whole probe agree on
folders: any two occurrences of the same canonical name carry the same
on-disk folder. -/
def ConsistentFolders (imports : List ImportedLib) : Prop :=
  ∀ d₁ ∈ imports, ∀ d₂ ∈ imports, d₁.realName = d₂.realName → d₁.folder = d₂.folder

theorem consistentFolders_of_cons {d : ImportedLib} {rest : List ImportedLib}
    (h : ConsistentFolders (d :: rest)) : ConsistentFolders rest :=
  fun d₁ h₁ d₂ h₂ => h d₁ (List.mem_cons_of_mem _ h₁) d₂ (List.mem_cons_of_mem _ h₂)

theorem classifyPure_subset (selfName root : String)
    (imports : List ImportedLib) (acc : List String × List String) :
    (∀ n ∈ acc.1, n ∈ (classifyPure selfName root acc imports).1) ∧
    (∀ n ∈ acc.2, n ∈ (classifyPure selfName root acc imports).2) := by
  induction imports generalizing acc with
  | nil => exact ⟨fun _ h => h, fun _ h => h⟩
  | cons dep rest ih =>
    simp only [classifyPure]
    split
    · split
      · refine ⟨fun n hn => ?_, fun n hn => (ih _).2 n hn⟩
        exact (ih _).1 n (by simp [hn])
      · refine ⟨fun n hn => (ih _).1 n hn, fun n hn => ?_⟩
        exact (ih _).2 n (by simp [hn])
    · exact ih _

theorem classifyPure_mem_external (selfName root : String) :
    ∀ (imports : List ImportedLib) (acc : List String × List String),
    ConsistentFolders imports → ∀ n : String,
    (n ∈ (classifyPure selfName root acc imports).1 ↔
      n ∈ acc.1 ∨ ∃ d ∈ imports, d.realName = n ∧ n ≠ selfName ∧
        n ∉ acc.1 ∧ n ∉ acc.2 ∧ goContains d.folder root = true) := by
  intro imports
  induction imports with
  | nil => intro acc _ n; simp [classifyPure]
  | cons dep rest ih =>
    intro acc hcons n
    have hrest := consistentFolders_of_cons hcons
    simp only [classifyPure]
    split
    · rename_i hG
      split
      · rename_i hct
        rw [ih _ hrest n]
        by_cases hn : n = dep.realName
        · subst hn
          constructor
          · intro _
            exact Or.inr ⟨dep, List.mem_cons_self _ _, rfl, hG.1, hG.2.1, hG.2.2, hct⟩
          · intro _
            exact Or.inl (by simp)
        · constructor
          · rintro (h1 | ⟨d, hd, hdn, hns, hn1, hn2, hc⟩)
            · rcases List.mem_append.mp h1 with h1 | h1
              · exact Or.inl h1
              · exact absurd (List.mem_singleton.mp h1) hn
            · refine Or.inr ⟨d, List.mem_cons_of_mem _ hd, hdn, hns, ?_, hn2, hc⟩
              intro hmem; exact hn1 (List.mem_append.mpr (Or.inl hmem))
          · rintro (h1 | ⟨d, hd, hdn, hns, hn1, hn2, hc⟩)
            · exact Or.inl (List.mem_append.mpr (Or.inl h1))
            · rcases List.mem_cons.mp hd with rfl | hd'
              · exact absurd hdn.symm hn
              · refine Or.inr ⟨d, hd', hdn, hns, ?_, hn2, hc⟩
                simp [List.mem_append, hn1, hn]
      · rename_i hct
        rw [ih _ hrest n]
        by_cases hn : n = dep.realName
        · subst hn
          constructor
          · rintro (h1 | ⟨d, hd, hdn, hns, hn1, hn2, hc⟩)
            · exact absurd h1 hG.2.1
            · exact absurd (by simp : dep.realName ∈ acc.2 ++ [dep.realName]) hn2
          · rintro (h1 | ⟨d, hd, hdn, hns, hn1, hn2, hc⟩)
            · exact absurd h1 hG.2.1
            · rcases List.mem_cons.mp hd with rfl | hd'
              · simp [hct] at hc
              · have hfold : d.folder = dep.folder :=
                  hcons d (List.mem_cons_of_mem _ hd') dep (List.mem_cons_self _ _) hdn
                rw [hfold] at hc
                simp [hct] at hc
          
        · constructor
          · rintro (h1 | ⟨d, hd, hdn, hns, hn1, hn2, hc⟩)
            · exact Or.inl h1
            · refine Or.inr ⟨d, List.mem_cons_of_mem _ hd, hdn, hns, hn1, ?_, hc⟩
              intro hmem; exact hn2 (List.mem_append.mpr (Or.inl hmem))
          · rintro (h1 | ⟨d, hd, hdn, hns, hn1, hn2, hc⟩)
            · exact Or.inl h1
            · rcases List.mem_cons.mp hd with rfl | hd'
              · exact absurd hdn.symm hn
              · refine Or.inr ⟨d, hd', hdn, hns, hn1, ?_, hc⟩
                simp [List.mem_append, hn2, hn]
    · rename_i hG
      rw [ih _ hrest n]
      constructor
      · rintro (h1 | ⟨d, hd, hdn, hns, hn1, hn2, hc⟩)
        · exact Or.inl h1
        · exact Or.inr ⟨d, List.mem_cons_of_mem _ hd, hdn, hns, hn1, hn2, hc⟩
      · rintro (h1 | ⟨d, hd, hdn, hns, hn1, hn2, hc⟩)
        · exact Or.inl h1
        · rcases List.mem_cons.mp hd with rfl | hd'
          · refine absurd ⟨?_, ?_, ?_⟩ hG
            · rw [hdn]; exact hns
            · rw [hdn]; exact hn1
            · rw [hdn]; exact hn2
          · exact Or.inr ⟨d, hd', hdn, hns, hn1, hn2, hc⟩

theorem classifyPure_mem_internal (selfName root : String) :
    ∀ (imports : List ImportedLib) (acc : List String × List String),
    ConsistentFolders imports → ∀ n : String,
    (n ∈ (classifyPure selfName root acc imports).2 ↔
      n ∈ acc.2 ∨ ∃ d ∈ imports, d.realName = n ∧ n ≠ selfName ∧
        n ∉ acc.1 ∧ n ∉ acc.2 ∧ goContains d.folder root = false) := by
  intro imports
  induction imports with
  | nil => intro acc _ n; simp [classifyPure]
  | cons dep rest ih =>
    intro acc hcons n
    have hrest := consistentFolders_of_cons hcons
    simp only [classifyPure]
    split
    · rename_i hG
      split
      · rename_i hct
        rw [ih _ hrest n]
        by_cases hn : n = dep.realName
        · subst hn
          constructor
          · rintro (h1 | ⟨d, hd, hdn, hns, hn1, hn2, hc⟩)
            · exact absurd h1 hG.2.2
            · exact absurd (by simp : dep.realName ∈ acc.1 ++ [dep.realName]) hn1
          · rintro (h1 | ⟨d, hd, hdn, hns, hn1, hn2, hc⟩)
            · exact absurd h1 hG.2.2
            · rcases List.mem_cons.mp hd with rfl | hd'
              · simp [hct] at hc
              · have hfold : d.folder = dep.folder :=
                  hcons d (List.mem_cons_of_mem _ hd') dep (List.mem_cons_self _ _) hdn
                rw [hfold] at hc
                simp [hct] at hc
        · constructor
          · rintro (h1 | ⟨d, hd, hdn, hns, hn1, hn2, hc⟩)
            · exact Or.inl h1
            · refine Or.inr ⟨d, List.mem_cons_of_mem _ hd, hdn, hns, ?_, hn2, hc⟩
              intro hmem; exact hn1 (List.mem_append.mpr (Or.inl hmem))
          · rintro (h1 | ⟨d, hd, hdn, hns, hn1, hn2, hc⟩)
            · exact Or.inl h1
            · rcases List.mem_cons.mp hd with rfl | hd'
              · exact absurd hdn.symm hn
              · refine Or.inr ⟨d, hd', hdn, hns, ?_, hn2, hc⟩
                simp [List.mem_append, hn1, hn]
      · rename_i hct
        rw [ih _ hrest n]
        by_cases hn : n = dep.realName
        · subst hn
          constructor
          · intro _
            exact Or.inr ⟨dep, List.mem_cons_self _ _, rfl, hG.1, hG.2.1, hG.2.2,
              by simpa using hct⟩
          · intro _
            exact Or.inl (by simp)
        · constructor
          · rintro (h1 | ⟨d, hd, hdn, hns, hn1, hn2, hc⟩)
            · rcases List.mem_append.mp h1 with h1 | h1
              · exact Or.inl h1
              · exact absurd (List.mem_singleton.mp h1) hn
            · refine Or.inr ⟨d, List.mem_cons_of_mem _ hd, hdn, hns, hn1, ?_, hc⟩
              intro hmem; exact hn2 (List.mem_append.mpr (Or.inl hmem))
          · rintro (h1 | ⟨d, hd, hdn, hns, hn1, hn2, hc⟩)
            · exact Or.inl (List.mem_append.mpr (Or.inl h1))
            · rcases List.mem_cons.mp hd with rfl | hd'
              · exact absurd hdn.symm hn
              · refine Or.inr ⟨d, hd', hdn, hns, hn1, ?_, hc⟩
                simp [List.mem_append, hn2, hn]
    · rename_i hG
      rw [ih _ hrest n]
      constructor
      · rintro (h1 | ⟨d, hd, hdn, hns, hn1, hn2, hc⟩)
        · exact Or.inl h1
        · exact Or.inr ⟨d, List.mem_cons_of_mem _ hd, hdn, hns, hn1, hn2, hc⟩
      · rintro (h1 | ⟨d, hd, hdn, hns, hn1, hn2, hc⟩)
        · exact Or.inl h1
        · rcases List.mem_cons.mp hd with rfl | hd'
          · refine absurd ⟨?_, ?_, ?_⟩ hG
            · rw [hdn]; exact hns
            · rw [hdn]; exact hn1
            · rw [hdn]; exact hn2
          · exact Or.inr ⟨d, hd', hdn, hns, hn1, hn2, hc⟩

theorem classifyPure_nodup_disjoint (selfName root : String) :
    ∀ (imports : List ImportedLib) (acc : List String × List String),
    acc.1.Nodup → acc.2.Nodup → (∀ n, ¬(n ∈ acc.1 ∧ n ∈ acc.2)) →
    ((classifyPure selfName root acc imports).1.Nodup ∧
     (classifyPure selfName root acc imports).2.Nodup ∧
     ∀ n, ¬(n ∈ (classifyPure selfName root acc imports).1 ∧
            n ∈ (classifyPure selfName root acc imports).2)) := by
  intro imports
  induction imports with
  | nil => intro acc h1 h2 h12; exact ⟨h1, h2, h12⟩
  | cons dep rest ih =>
    intro acc h1 h2 h12
    simp only [classifyPure]
    split
    · rename_i hG
      split
      · apply ih
        · rw [List.nodup_append]
          refine ⟨h1, List.nodup_singleton _, ?_⟩
          intro x hx hx'
          rw [List.mem_singleton] at hx'
          subst hx'
          exact hG.2.1 hx
        · exact h2
        · intro n ⟨hna, hnb⟩
          rcases List.mem_append.mp hna with hna | hna
          · exact h12 n ⟨hna, hnb⟩
          · rw [List.mem_singleton] at hna
            subst hna
            exact hG.2.2 hnb
      · apply ih
        · exact h1
        · rw [List.nodup_append]
          refine ⟨h2, List.nodup_singleton _, ?_⟩
          intro x hx hx'
          rw [List.mem_singleton] at hx'
          subst hx'
          exact hG.2.2 hx
        · intro n ⟨hna, hnb⟩
          rcases List.mem_append.mp hnb with hnb | hnb
          · exact h12 n ⟨hna, hnb⟩
          · rw [List.mem_singleton] at hnb
            subst hnb
            exact hG.2.1 hna
    · exact ih _ h1 h2 h12

/-- FQBN preset on `ctx` before the main loop (line 234 of the source). -/
def initialFQBN : String := "arduino:avr:uno"

/-- The target-profile selection block of the main loop (lines 298-322):
a sequence of conditional overwrites of `ctx.FQBN`, starting from the
value `prev` that `ctx.FQBN` holds when the iteration begins.  Go
evaluates `library.Archs[0]` before anything else, which panics on an
empty slice; that is rendered as `none`. -/
def selectFQBN (prev name : String) (archs : List String) : Option String :=
  match archs with
  | [] => none
  | a0 :: _ =>
    let fqbn := prev
    let fqbn := if a0 = "*" ∨ "avr" ∈ archs then "arduino:avr:micro" else fqbn
    let fqbn :=
      if goContains name "Robot" then
        if goContains name "Control" then "arduino:avr:robotControl"
        else "arduino:avr:robotMotor"
      else fqbn
    let fqbn :=
      if goContains name "Adafruit" ∧ goContains name "Playground" then
        "arduino:avr:circuitplay32u4cat"
      else fqbn
    let fqbn := if "sam" ∈ archs then "arduino:sam:arduino_due_x_dbg" else fqbn
    let fqbn := if "samd" ∈ archs then "arduino:samd:mkr1000" else fqbn
    let fqbn := if "arc32" ∈ archs then "Intel:arc32:arduino_101" else fqbn
    let fqbn :=
      if "esp8266" ∈ archs then
        "esp8266:esp8266:nodemcuv2:CpuFrequency=80,UploadSpeed=115200,FlashSize=4M3M"
      else fqbn
    some fqbn

/-- The selection block of lines 298-322 rewritten, following the spec's
words, as an explicit ordered rule table: the `"*"`/`"avr"` architecture
rule, the two name-keyword rules, then the four architecture-tag rules. -/
def profileRules : List (String × List String → Option String) :=
  [ fun x => if x.2.headD "" = "*" ∨ "avr" ∈ x.2 then some "arduino:avr:micro" else none
  , fun x =>
      if goContains x.1 "Robot" then
        if goContains x.1 "Control" then some "arduino:avr:robotControl"
        else some "arduino:avr:robotMotor"
      else none
  , fun x =>
      if goContains x.1 "Adafruit" ∧ goContains x.1 "Playground" then
        some "arduino:avr:circuitplay32u4cat"
      else none
  , fun x => if "sam" ∈ x.2 then some "arduino:sam:arduino_due_x_dbg" else none
  , fun x => if "samd" ∈ x.2 then some "arduino:samd:mkr1000" else none
  , fun x => if "arc32" ∈ x.2 then some "Intel:arc32:arduino_101" else none
  , fun x =>
      if "esp8266" ∈ x.2 then
        some "esp8266:esp8266:nodemcuv2:CpuFrequency=80,UploadSpeed=115200,FlashSize=4M3M"
      else none ]

/-- Last-match-wins evaluation of an ordered rule table: every matching
rule overwrites the result of all previous ones, and the default is used
when no rule matches. -/
def lastMatchWins {α : Type} (rules : List (α → Option String)) (dflt : String) (x : α) : String :=
  rules.foldl (fun acc r => (r x).getD acc) dflt

theorem selectFQBN_eq_lastMatchWins (prev name : String) (archs : List String)
    (h : archs ≠ []) :
    selectFQBN prev name archs = some (lastMatchWins profileRules prev (name, archs)) := by
  cases archs with
  | nil => exact absurd rfl h
  | cons a0 rest =>
    simp only [selectFQBN, profileRules, lastMatchWins, List.foldl, List.headD_cons]
    split_ifs <;> simp

/-- Outcome of one `builder.RunBuilder` invocation, an oracle for the
external build pipeline: the imported libraries it reports, whether it
succeeded (`err == nil`), and the error text when it failed. -/
structure ProbeResult where
  imported : List ImportedLib
  success : Bool
  errMsg : String
deriving DecidableEq, Repr

/-- One library as the main loop sees it: the `types.Library` fields the
loop reads, together with the build-pipeline oracle for its primary probe
and for each example sketch found under its `examples` folder. -/
structure LibraryJob where
  name : String
  realName : String
  version : String
  archs : List String
  primary : ProbeResult
  exampleJobs : List ProbeResult
deriving DecidableEq, Repr

/-- One entry of `library_index.json` (`indexLibrary` in the source),
restricted to the fields the loop reads or writes: the identity pair
(`name`, `version`) used by `indexJsonContains` and the mutable
`Requires` list. -/
structure IndexLibrary where
  libraryName : String
  version : String
  requires : List String
deriving DecidableEq, Repr

/-- `indexJsonContains` from the source: index of the first catalog entry
whose name and version both match, `none` for the source's `-1`. -/
def indexJsonContains : List IndexLibrary → String → String → Option Nat
  | [], _, _ => none
  | lib :: rest, name, version =>
    if lib.libraryName = name ∧ lib.version = version then some 0
    else (indexJsonContains rest name version).map (· + 1)

theorem indexJsonContains_spec (index : List IndexLibrary) (name version : String)
    (i : Nat) (h : indexJsonContains index name version = some i) :
    ∃ entry, index.get? i = some entry ∧
      entry.libraryName = name ∧ entry.version = version := by
  induction index generalizing i with
  | nil => simp [indexJsonContains] at h
  | cons lib rest ih =>
    rw [indexJsonContains] at h
    split at h
    · rename_i hcond
      cases h
      exact ⟨lib, rfl, hcond.1, hcond.2⟩
    · rcases Option.map_eq_some'.mp h with ⟨j, hj, rfl⟩
      rcases ih j hj with ⟨entry, hget, hn, hv⟩
      exact ⟨entry, by simpa using hget, hn, hv⟩

/-- The in-memory state the main loop threads along: `indexJson.Libraries`
(the catalog), the `previousRun.Exists` map (a total map with Go's
zero-value default `false`), and — as an observation trace for stating
properties — the names of the libraries whose probe was attempted. -/
structure RunState where
  catalog : List IndexLibrary
  cache : String → Bool
  probed : List String

/-- The example expansion pass (lines 373-415): for each example sketch,
run the builder, record the error text when the build failed, and continue
classifying the example's imported libraries into the running
accumulators.  A failing example never stops the pass; only the
classification panic (empty other-libraries list) does. -/
def examplePass (selfName : String) (roots : List String) :
    List String × List String → List String → List ProbeResult →
    Option ((List String × List String) × List String)
  | acc, errs, [] => some (acc, errs)
  | acc, errs, ex :: rest =>
    let errs' := if ex.success then errs else errs ++ [ex.errMsg]
    match classifyImports selfName roots acc ex.imported with
    | none => none
    | some acc' => examplePass selfName roots acc' errs' rest

/-- One iteration of the main loop (lines 274-423) over a single library:
skip it when it is absent from the catalog index, skip it when the cache
marks it processed and `-force` is unset; otherwise classify the primary
probe's imports, optionally run the example pass, write the accumulated
external dependencies into the catalog entry's `Requires`, and mark the
library processed.  `none` models the Go panic inside classification. -/
def stepLibrary (roots : List String) (force exampleFlag : Bool)
    (st : RunState) (job : LibraryJob) : Option RunState :=
  match indexJsonContains st.catalog job.realName job.version with
  | none => some st
  | some libIndex =>
    if st.cache job.name = true ∧ force = false then some st
    else
      match classifyImports job.realName roots ([], []) job.primary.imported with
      | none => none
      | some acc =>
        match (if exampleFlag then
                 (examplePass job.realName roots acc [] job.exampleJobs).map Prod.fst
               else some acc) with
        | none => none
        | some accF =>
          match st.catalog.get? libIndex with
          | none => some st
          | some entry =>
            some { catalog := st.catalog.set libIndex { entry with requires := accF.1 }
                 , cache := fun n => if n = job.name then true else st.cache n
                 , probed := st.probed ++ [job.name] }

/-- The main loop over all libraries the builder discovered
(`ctx.Libraries`), threading the run state. -/
def runLoop (roots : List String) (force exampleFlag : Bool) :
    RunState → List LibraryJob → Option RunState
  | st, [] => some st
  | st, job :: rest =>
    match stepLibrary roots force exampleFlag st job with
    | none => none
    | some st' => runLoop roots force exampleFlag st' rest

/-- Exit code of every fatal error path before the loop: missing json
path, `printCompleteError`, `printErrorMessageAndFlagUsage`, malformed
`cached_results.json`, malformed catalog — all call `os.Exit(1)`. -/
def fatalExitCode : Nat := 1

/-- Exit code of the interrupt watcher goroutine (line 271):
`os.Exit(2)` after flushing the catalog. -/
def interruptExitCode : Nat := 2

/-- Loading `cached_results.json` (lines 244-251): a missing file is
ignored and the pre-made empty map is kept; a file that is present but
fails to decode prints the error and exits with code 1.  The JSON decoder
is the oracle `parse`. -/
def loadProcessedCache (file : Option String)
    (parse : String → Option (String → Bool)) : Except Nat (String → Bool) :=
  match file with
  | none => .ok (fun _ => false)
  | some s =>
    match parse s with
    | none => .error fatalExitCode
    | some cache => .ok cache

/-- Loading the catalog json (lines 253-259): the read error is ignored,
so a missing file feeds nil bytes to the decoder and fails there; any
decode failure prints the error and exits with code 1. -/
def loadIndex (file : Option String)
    (parse : String → Option (List IndexLibrary)) : Except Nat (List IndexLibrary) :=
  match file with
  | none => .error fatalExitCode
  | some s =>
    match parse s with
    | none => .error fatalExitCode
    | some catalog => .ok catalog

/-- Observable end of a run: an early `os.Exit` with a code, a Go panic
inside the loop, or normal completion with the final in-memory state. -/
inductive RunResult where
  | exited (code : Nat)
  | panicked
  | completed (st : RunState)

/-- The part of `main` from the catalog load onward, for a given
processed cache. -/
def runWithCache (cache : String → Bool) (indexFile : Option String)
    (parseIndex : String → Option (List IndexLibrary))
    (roots : List String) (force exampleFlag : Bool)
    (jobs : List LibraryJob) : RunResult :=
  match loadIndex indexFile parseIndex with
  | .error code => .exited code
  | .ok catalog =>
    match runLoop roots force exampleFlag ⟨catalog, cache, []⟩ jobs with
    | none => .panicked
    | some st => .completed st

/-- `main` from the cache load onward (lines 240-436): load the cache,
load the catalog, then run the loop over the discovered libraries. -/
def runMain (cacheFile : Option String)
    (parseCache : String → Option (String → Bool))
    (indexFile : Option String)
    (parseIndex : String → Option (List IndexLibrary))
    (roots : List String) (force exampleFlag : Bool)
    (jobs : List LibraryJob) : RunResult :=
  match loadProcessedCache cacheFile parseCache with
  | .error code => .exited code
  | .ok cache => runWithCache cache indexFile parseIndex roots force exampleFlag jobs

/-- The interrupt watcher body (lines 263-272): on the first signal it
marshals the current in-memory catalog, writes it to the catalog file,
and exits with code 2.  `marshal` is the JSON encoder oracle; the result
is the pair (bytes written to the catalog file, exit code). -/
def signalHandler (marshal : List IndexLibrary → String)
    (catalog : List IndexLibrary) : String × Nat :=
  (marshal catalog, interruptExitCode)

/-- Go's `string(i)` conversion on an integer: the UTF-8 string holding
the single rune with code point `i` — not the decimal representation. -/
def goStringOfInt (n : Nat) : String :=
  String.singleton (Char.ofNat n)

/-- Go's `fmt.Print` rendering of a string slice: elements separated by
single spaces inside brackets. -/
def goShowStringSlice (l : List String) : String :=
  "[" ++ String.intercalate " " l ++ "]"

/-- The line printed after a library's example pass (lines 402-413),
newline included: the accumulated partitions, then either a plain line
end on success or `" but " + string(len(errors_examples)) + " failed to
compile on " + ctx.FQBN`. -/
def exampleSummary (libName : String) (deps internal errs : List String)
    (fqbn : String) : String :=
  "Examples for " ++ libName ++ " depends on: " ++ goShowStringSlice deps ++
    " provided by lib manager and " ++ goShowStringSlice internal ++
    " provided by cores or builtin" ++
    (if errs.length > 0 then
      " but " ++ goStringOfInt errs.length ++ " failed to compile on " ++ fqbn
     else "") ++ "\n"

/-- A directory tree as `findFilesInFolder` traverses it: the directory's
name, its plain files and its subdirectories, each list in
directory-listing order (the order `utils.ReadDirFiltered` reports). -/
inductive FSDir where
  | node (dirName : String) (files : List String) (subs : List FSDir)

/-- Name component of a directory node. -/
def FSDir.name : FSDir → String
  | .node n _ _ => n

/-- `findFilesInFolder` from the source: the extension-matching files of
the folder itself first, then — when `recurse` is set — the files of each
subfolder in listing order.  `utils.FilterFilesWithExtensions` (external)
keeps the files whose `filepath.Ext` equals the requested extension. -/
def findFilesInFolder (sourcePath extension : String) (recurse : Bool) :
    FSDir → List String
  | .node _ files subs =>
    (files.filter (fun f => goExt f = extension)).map (fun f => sourcePath ++ "/" ++ f)
      ++ (if recurse then
            (subs.attach.map (fun s =>
              findFilesInFolder (sourcePath ++ "/" ++ s.1.name) extension recurse s.1)).flatten
          else [])
termination_by d => sizeOf d
decreasing_by
  simp_wf
  have := List.sizeOf_lt_of_mem s.2
  omega

/-- The header-selection loop of `includeHeadersFromLibraryFolder`
(lines 447-461), with the external Jaro-Winkler threshold test
`textdistance.JaroWinklerDistance(base, name) > 0.9` abstracted as the
Boolean oracle `confident`: every header whose base name passes the test
is included; when none passes and headers exist, exactly the first found
header is included. -/
def includedHeaders (confident : String → String → Bool)
    (headers : List String) (libName : String) : List String :=
  let hits := (headers.filter (fun h => confident (goBase h) libName)).map goBase
  match hits, headers with
  | [], h :: _ => [goBase h]
  | _, _ => hits

/-- Renders the `#include` lines the loop appends to `temp`. -/
def renderIncludes : List String → String
  | [] => ""
  | b :: rest => "#include \"" ++ b ++ "\"\n" ++ renderIncludes rest

/-- `includeHeadersFromLibraryFolder` from the source: start from a bare
newline, then append one `#include` line per selected header of the
library folder tree. -/
def includeHeadersFromLibraryFolder (confident : String → String → Bool)
    (tree : FSDir) (folder libName : String) : String :=
  "\n" ++ renderIncludes (includedHeaders confident
    (findFilesInFolder folder ".h" true tree) libName)

/-- All imported libraries a library's processing observes: the primary
probe's, followed by each example probe's when the example pass is on. -/
def allImports (exampleFlag : Bool) (job : LibraryJob) : List ImportedLib :=
  job.primary.imported ++
    (if exampleFlag then (job.exampleJobs.map (·.imported)).flatten else [])

theorem classifyPure_append (selfName root : String) :
    ∀ (l₁ l₂ : List ImportedLib) (acc : List String × List String),
    classifyPure selfName root acc (l₁ ++ l₂) =
      classifyPure selfName root (classifyPure selfName root acc l₁) l₂ := by
  intro l₁
  induction l₁ with
  | nil => intro l₂ acc; rfl
  | cons dep rest ih =>
    intro l₂ acc
    simp only [List.cons_append, classifyPure]
    split
    · split
      · exact ih _ _
      · exact ih _ _
    · exact ih _ _

theorem examplePass_eq_pure (selfName root : String) (rs : List String) :
    ∀ (exs : List ProbeResult) (acc : List String × List String)
      (errs : List String),
    examplePass selfName (root :: rs) acc errs exs =
      some (classifyPure selfName root acc (exs.map (·.imported)).flatten,
            errs ++ (exs.filter (fun e => e.success = false)).map (·.errMsg)) := by
  intro exs
  induction exs with
  | nil => intro acc errs; simp [examplePass, classifyPure]
  | cons ex rest ih =>
    intro acc errs
    simp only [examplePass, classifyImports_eq_pure]
    rw [ih]
    simp only [List.map_cons, List.flatten_cons, classifyPure_append, List.filter_cons]
    cases hs : ex.success with
    | true => simp
    | false => simp

theorem stepLibrary_process (root : String) (rs : List String)
    (force exampleFlag : Bool) (st : RunState) (job : LibraryJob)
    (i : Nat) (entry : IndexLibrary)
    (hfind : indexJsonContains st.catalog job.realName job.version = some i)
    (hget : st.catalog.get? i = some entry)
    (hskip : ¬(st.cache job.name = true ∧ force = false)) :
    stepLibrary (root :: rs) force exampleFlag st job =
      some { catalog := st.catalog.set i
               { entry with requires :=
                   (classifyPure job.realName root ([], [])
                     (allImports exampleFlag job)).1 }
           , cache := fun n => if n = job.name then true else st.cache n
           , probed := st.probed ++ [job.name] } := by
  unfold stepLibrary
  rw [hfind]
  simp only [if_neg hskip]
  rw [classifyImports_eq_pure]
  cases exampleFlag with
  | false =>
    simp only [Bool.false_eq_true, if_false, hget, allImports]
    simp [classifyPure_append]
  | true =>
    simp only [if_true, examplePass_eq_pure, Option.map_some', hget, allImports]
    simp [classifyPure_append]

theorem stepLibrary_cases (roots : List String) (force exampleFlag : Bool)
    (st : RunState) (job : LibraryJob) (st' : RunState)
    (h : stepLibrary roots force exampleFlag st job = some st') :
    st' = st ∨
      (st'.cache = (fun n => if n = job.name then true else st.cache n) ∧
       st'.probed = st.probed ++ [job.name] ∧
       ∃ i entry r, st.catalog.get? i = some entry ∧
         st'.catalog = st.catalog.set i { entry with requires := r }) := by
  unfold stepLibrary at h
  split at h
  · exact Or.inl (Option.some.inj h).symm
  · rename_i i hfind
    split at h
    · exact Or.inl (Option.some.inj h).symm
    · split at h
      · exact absurd h (by simp)
      · rename_i acc hacc
        split at h
        · exact absurd h (by simp)
        · rename_i accF haccF
          split at h
          · exact Or.inl (Option.some.inj h).symm
          · rename_i entry hentry
            cases Option.some.inj h
            exact Or.inr ⟨rfl, rfl, i, entry, accF.1, hentry, rfl⟩

theorem indexJsonContains_set (entry : IndexLibrary) (r : List String) :
    ∀ (l : List IndexLibrary) (i : Nat), l.get? i = some entry →
    ∀ n v, indexJsonContains (l.set i { entry with requires := r }) n v =
      indexJsonContains l n v := by
  intro l
  induction l with
  | nil => intro i h; simp at h
  | cons lib rest ih =>
    intro i h n v
    cases i with
    | zero =>
      cases Option.some.inj h
      rfl
    | succ j =>
      simp only [List.get?] at h
      simp only [List.set]
      rw [indexJsonContains, indexJsonContains]
      split
      · rfl
      · rw [ih j h n v]

theorem stepLibrary_key (roots : List String) (force exampleFlag : Bool)
    (st : RunState) (job : LibraryJob) (st' : RunState)
    (h : stepLibrary roots force exampleFlag st job = some st') :
    ∀ n v, indexJsonContains st'.catalog n v = indexJsonContains st.catalog n v := by
  rcases stepLibrary_cases _ _ _ _ _ _ h with rfl | ⟨_, _, i, entry, r, hget, hcat⟩
  · intro n v; rfl
  · intro n v
    rw [hcat, indexJsonContains_set entry r st.catalog i hget n v]

theorem runLoop_facts (roots : List String) (force exampleFlag : Bool) :
    ∀ (jobs : List LibraryJob) (st stF : RunState),
    runLoop roots force exampleFlag st jobs = some stF →
    (∀ n, st.cache n = true → stF.cache n = true) ∧
    (∀ n ∈ st.probed, n ∈ stF.probed) ∧
    (∀ n v, indexJsonContains stF.catalog n v = indexJsonContains st.catalog n v) ∧
    (∀ n ∈ stF.probed, n ∈ st.probed ∨ stF.cache n = true) := by
  intro jobs
  induction jobs with
  | nil =>
    intro st stF h
    cases Option.some.inj h
    exact ⟨fun _ h => h, fun _ h => h, fun _ _ => rfl, fun n hn => Or.inl hn⟩
  | cons job rest ih =>
    intro st stF h
    rw [runLoop] at h
    cases hstep : stepLibrary roots force exampleFlag st job with
    | none => rw [hstep] at h; exact absurd h (by simp)
    | some st1 =>
      rw [hstep] at h
      obtain ⟨ihc, ihp, ihk, ihm⟩ := ih st1 stF h
      rcases stepLibrary_cases _ _ _ _ _ _ hstep with rfl | ⟨hcache, hprobed, _, _, _, _, hcat⟩
      · exact ⟨ihc, ihp, ihk, ihm⟩
      · refine ⟨?_, ?_, ?_, ?_⟩
        · intro n hn
          apply ihc
          rw [hcache]
          by_cases hnn : n = job.name <;> simp [hnn, hn]
        · intro n hn
          apply ihp
          rw [hprobed]
          exact List.mem_append.mpr (Or.inl hn)
        · intro n v
          rw [ihk n v, stepLibrary_key _ _ _ _ _ _ hstep n v]
        · intro n hn
          rcases ihm n hn with hn1 | hn1
          · rw [hprobed] at hn1
            rcases List.mem_append.mp hn1 with hn2 | hn2
            · exact Or.inl hn2
            · right
              apply ihc
              rw [hcache, List.mem_singleton.mp hn2]
              simp
          · exact Or.inr hn1

theorem stepLibrary_skip (roots : List String) (exampleFlag : Bool)
    (st : RunState) (job : LibraryJob) (h : st.cache job.name = true) :
    stepLibrary roots false exampleFlag st job = some st := by
  unfold stepLibrary
  split
  · rfl
  · rw [if_pos ⟨h, rfl⟩]

theorem runLoop_skip_all (roots : List String) (exampleFlag : Bool) :
    ∀ (jobs : List LibraryJob) (st : RunState),
    (∀ job ∈ jobs, st.cache job.name = true) →
    runLoop roots false exampleFlag st jobs = some st := by
  intro jobs
  induction jobs with
  | nil => intro st _; rfl
  | cons job rest ih =>
    intro st h
    rw [runLoop, stepLibrary_skip roots exampleFlag st job (h job (List.mem_cons_self _ _))]
    exact ih st (fun j hj => h j (List.mem_cons_of_mem _ hj))

theorem stepLibrary_force_probed (roots : List String) (exampleFlag : Bool)
    (st : RunState) (job : LibraryJob) (st' : RunState) (i : Nat)
    (hfind : indexJsonContains st.catalog job.realName job.version = some i)
    (h : stepLibrary roots true exampleFlag st job = some st') :
    job.name ∈ st'.probed ∧ st'.cache job.name = true := by
  unfold stepLibrary at h
  split at h
  · rename_i hnone
    rw [hnone] at hfind
    exact absurd hfind (by simp)
  · rename_i j hj
    rw [if_neg (by simp)] at h
    split at h
    · exact absurd h (by simp)
    · split at h
      · exact absurd h (by simp)
      · split at h
        · rename_i hget
          rcases indexJsonContains_spec st.catalog job.realName job.version j hj with
            ⟨entry, hentry, _, _⟩
          rw [hentry] at hget
          exact absurd hget (by simp)
        · cases Option.some.inj h
          exact ⟨by simp, by simp⟩

theorem runLoop_force (roots : List String) (exampleFlag : Bool) :
    ∀ (jobs : List LibraryJob) (st stF : RunState),
    runLoop roots true exampleFlag st jobs = some stF →
    ∀ job ∈ jobs, (indexJsonContains st.catalog job.realName job.version).isSome →
      job.name ∈ stF.probed ∧ stF.cache job.name = true := by
  intro jobs
  induction jobs with
  | nil => intro st stF h job hj; simp at hj
  | cons job0 rest ih =>
    intro st stF h job hj hfind
    rw [runLoop] at h
    cases hstep : stepLibrary roots true exampleFlag st job0 with
    | none => rw [hstep] at h; exact absurd h (by simp)
    | some st1 =>
      rw [hstep] at h
      obtain ⟨ihc, ihp, _, _⟩ := runLoop_facts roots true exampleFlag rest st1 stF h
      rcases List.mem_cons.mp hj with rfl | hj'
      · rcases Option.isSome_iff_exists.mp hfind with ⟨i, hi⟩
        obtain ⟨hp, hc⟩ := stepLibrary_force_probed roots exampleFlag st job st1 i hi hstep
        exact ⟨ihp _ hp, ihc _ hc⟩
      · apply ih st1 stF h job hj'
        rw [stepLibrary_key _ _ _ _ _ _ hstep]
        exact hfind

theorem goContains_of_infix (s sub : String)
    (h : sub.toList <:+: s.toList) : goContains s sub = true := by
  unfold goContains
  rw [List.any_eq_true]
  rcases List.infix_iff_prefix_suffix.mp h with ⟨t, hpre, hsuf⟩
  exact ⟨t, (List.mem_tails _ _).mpr hsuf, List.isPrefixOf_iff_prefix.mpr hpre⟩

theorem renderIncludes_infix (b : String) :
    ∀ l : List String, b ∈ l →
    ("#include \"" ++ b ++ "\"\n").toList <:+: (renderIncludes l).toList := by
  intro l
  induction l with
  | nil => intro h; simp at h
  | cons b' rest ih =>
    intro h
    rcases List.mem_cons.mp h with rfl | h'
    · refine ⟨[], (renderIncludes rest).toList, ?_⟩
      simp [renderIncludes]
    · rcases ih h' with ⟨u, v, huv⟩
      refine ⟨("#include \"" ++ b' ++ "\"\n").toList ++ u, v, ?_⟩
      show ("#include \"" ++ b' ++ "\"\n").toList ++ u ++
          ("#include \"" ++ b ++ "\"\n").toList ++ v =
        ("#include \"" ++ b' ++ "\"\n").toList ++ (renderIncludes rest).toList
      simp only [List.append_assoc] at huv ⊢
      rw [huv]

/-- Claim C2: for every dependency discovered by the primary probe or an
example probe (the probed library's own identity excluded), the classifier
places it in the externally-distributed list exactly when its folder lies
under (contains) the first configured other-libraries root, and otherwise
in the locally-provided list; over the imported-library set accumulated
across the primary probe and all example probes the two partitions are
disjoint and exhaustive. -/
theorem c2_classifier_partition (job : LibraryJob) (exampleFlag : Bool)
    (root : String) (rs : List String) (deps internal : List String)
    (hcons : ConsistentFolders (allImports exampleFlag job))
    (hrun : classifyImports job.realName (root :: rs) ([], [])
              (allImports exampleFlag job) = some (deps, internal)) :
    (∀ d ∈ allImports exampleFlag job, d.realName ≠ job.realName →
       ((d.realName ∈ deps ↔ goContains d.folder root = true) ∧
        (d.realName ∈ internal ↔ goContains d.folder root = false))) ∧
    (∀ n : String, ¬(n ∈ deps ∧ n ∈ internal)) ∧
    (∀ n : String, (n ∈ deps ∨ n ∈ internal) ↔
       ∃ d ∈ allImports exampleFlag job, d.realName = n ∧ n ≠ job.realName) := by
  rw [classifyImports_eq_pure] at hrun
  have hp := Option.some.inj hrun
  have hd : (classifyPure job.realName root ([], []) (allImports exampleFlag job)).1 = deps :=
    congrArg Prod.fst hp
  have hi : (classifyPure job.realName root ([], []) (allImports exampleFlag job)).2 = internal :=
    congrArg Prod.snd hp
  subst hd
  subst hi
  have hext := fun n => classifyPure_mem_external job.realName root
    (allImports exampleFlag job) ([], []) hcons n
  have hint := fun n => classifyPure_mem_internal job.realName root
    (allImports exampleFlag job) ([], []) hcons n
  simp only [List.not_mem_nil, not_false_iff, true_and, false_or] at hext hint
  refine ⟨?_, ?_, ?_⟩
  · intro d hd hne
    constructor
    · constructor
      · intro hmem
        rcases (hext d.realName).mp hmem with ⟨d', hd', hdn', _, hc'⟩
        rw [← hcons d' hd' d hd hdn']
        exact hc'
      · intro hc
        exact (hext d.realName).mpr ⟨d, hd, rfl, hne, hc⟩
    · constructor
      · intro hmem
        rcases (hint d.realName).mp hmem with ⟨d', hd', hdn', _, hc'⟩
        rw [← hcons d' hd' d hd hdn']
        exact hc'
      · intro hc
        exact (hint d.realName).mpr ⟨d, hd, rfl, hne, hc⟩
  · exact (classifyPure_nodup_disjoint job.realName root (allImports exampleFlag job)
      ([], []) List.nodup_nil List.nodup_nil (by simp)).2.2
  · intro n
    constructor
    · rintro (hmem | hmem)
      · rcases (hext n).mp hmem with ⟨d, hd, hdn, hns, _⟩
        exact ⟨d, hd, hdn, hns⟩
      · rcases (hint n).mp hmem with ⟨d, hd, hdn, hns, _⟩
        exact ⟨d, hd, hdn, hns⟩
    · rintro ⟨d, hd, hdn, hns⟩
      by_cases hc : goContains d.folder root = true
      · exact Or.inl ((hext n).mpr ⟨d, hd, hdn, hns, hc⟩)
      · exact Or.inr ((hint n).mpr ⟨d, hd, hdn, hns, Bool.not_eq_true _ ▸ hc⟩)

/-- Witness for C2 at a concrete probed library with one external
dependency, one core-provided dependency, a self-import, and an example
discovering a further external dependency. -/
theorem c2_classifier_partition_witness :
    ("Dep" ∈ (["Dep", "Edep"] : List String) ↔
      goContains "/home/user/libs/Dep" "/home/user/libs" = true) ∧
    ¬("Dep" ∈ (["Dep", "Edep"] : List String) ∧ "Dep" ∈ (["Core"] : List String)) := by
  have h := c2_classifier_partition
    ⟨"Lib", "Lib", "1.0.0", ["avr"],
      ⟨[⟨"Dep", "/home/user/libs/Dep"⟩, ⟨"Core", "/arduino/avr/Core"⟩,
        ⟨"Lib", "/home/user/libs/Lib"⟩], true, ""⟩,
      [⟨[⟨"Edep", "/home/user/libs/Edep"⟩], true, ""⟩]⟩
    true "/home/user/libs" [] ["Dep", "Edep"] ["Core"]
    (by unfold ConsistentFolders; decide) (by decide)
  exact ⟨(h.1 ⟨"Dep", "/home/user/libs/Dep"⟩ (by decide) (by decide)).1, h.2.1 "Dep"⟩

/-- Claim C1: when a library present in the catalog index and not skipped
by the processed cache is finalized, the Requires list written into its
catalog entry holds exactly the externally-distributed dependencies
observed during the primary probe and any example probes, de-duplicated
by canonical name, and never contains the probed library's own
identity. -/
theorem c1_requires_written (root : String) (rs : List String)
    (force exampleFlag : Bool) (st : RunState) (job : LibraryJob)
    (i : Nat) (st' : RunState)
    (hfind : indexJsonContains st.catalog job.realName job.version = some i)
    (hskip : ¬(st.cache job.name = true ∧ force = false))
    (hcons : ConsistentFolders (allImports exampleFlag job))
    (hstep : stepLibrary (root :: rs) force exampleFlag st job = some st') :
    ∃ entry, st'.catalog.get? i = some entry ∧
      (∀ n : String, n ∈ entry.requires ↔
        ∃ d ∈ allImports exampleFlag job,
          d.realName = n ∧ n ≠ job.realName ∧ goContains d.folder root = true) ∧
      job.realName ∉ entry.requires ∧ entry.requires.Nodup := by
  rcases indexJsonContains_spec st.catalog job.realName job.version i hfind with
    ⟨entry, hget, _, _⟩
  rw [stepLibrary_process root rs force exampleFlag st job i entry hfind hget hskip] at hstep
  cases Option.some.inj hstep
  have hlen : i < st.catalog.length := by
    by_contra hle
    rw [List.get?_eq_none.mpr (Nat.le_of_not_lt hle)] at hget
    exact absurd hget (by simp)
  refine ⟨{ entry with requires :=
    (classifyPure job.realName root ([], []) (allImports exampleFlag job)).1 }, ?_, ?_, ?_, ?_⟩
  · show (st.catalog.set i _).get? i = _
    simp [List.get?_eq_getElem?, List.getElem?_set_self, hlen]
  · intro n
    have hext := classifyPure_mem_external job.realName root
      (allImports exampleFlag job) ([], []) hcons n
    simpa using hext
  · intro hmem
    have hext := classifyPure_mem_external job.realName root
      (allImports exampleFlag job) ([], []) hcons job.realName
    simp only [List.not_mem_nil, not_false_iff, true_and, false_or] at hext
    rcases hext.mp hmem with ⟨d, _, _, hns, _⟩
    exact hns rfl
  · exact (classifyPure_nodup_disjoint job.realName root (allImports exampleFlag job)
      ([], []) List.nodup_nil List.nodup_nil (by simp)).1

/-- Witness for C1: a concrete step writes Requires = ["Dep", "Edep"]
(primary plus example discovery, de-duplicated), without the probed
library's own name. -/
theorem c1_requires_written_witness :
    "Dep" ∈ (["Dep", "Edep"] : List String) ∧
    "Lib" ∉ (["Dep", "Edep"] : List String) ∧
    (["Dep", "Edep"] : List String).Nodup := by
  obtain ⟨entry, hget, hmem, hself, hnd⟩ := c1_requires_written "/home/user/libs" [] false true
    ⟨[⟨"Lib", "1.0.0", []⟩], fun _ => false, []⟩
    ⟨"Lib", "Lib", "1.0.0", ["avr"],
      ⟨[⟨"Dep", "/home/user/libs/Dep"⟩, ⟨"Core", "/arduino/avr/Core"⟩,
        ⟨"Lib", "/home/user/libs/Lib"⟩], true, ""⟩,
      [⟨[⟨"Edep", "/home/user/libs/Edep"⟩], true, ""⟩]⟩
    0 ⟨[⟨"Lib", "1.0.0", ["Dep", "Edep"]⟩], fun n => if n = "Lib" then true else false, ["Lib"]⟩
    (by decide) (by decide) (by unfold ConsistentFolders; decide) rfl
  have he : entry = ⟨"Lib", "1.0.0", ["Dep", "Edep"]⟩ := by
    have hs : some (⟨"Lib", "1.0.0", ["Dep", "Edep"]⟩ : IndexLibrary) = some entry := by
      rw [← hget]
      rfl
    exact (Option.some.inj hs).symm
  subst he
  refine ⟨?_, hself, hnd⟩
  exact (hmem "Dep").mpr
    ⟨⟨"Dep", "/home/user/libs/Dep"⟩, by decide, rfl, by decide, by decide⟩

theorem classifyImports_nil_roots (selfName : String) :
    ∀ (imports : List ImportedLib) (acc : List String × List String),
    (∃ d ∈ imports, d.realName ≠ selfName ∧ d.realName ∉ acc.1 ∧ d.realName ∉ acc.2) →
    classifyImports selfName [] acc imports = none := by
  intro imports
  induction imports with
  | nil =>
    rintro acc ⟨d, hd, _⟩
    simp at hd
  | cons dep rest ih =>
    rintro acc ⟨d, hd, hne, h1, h2⟩
    simp only [classifyImports]
    split
    · rfl
    · rename_i hG
      apply ih
      rcases List.mem_cons.mp hd with rfl | hd'
      · exact absurd ⟨hne, h1, h2⟩ hG
      · exact ⟨d, hd', hne, h1, h2⟩

/-- Claim C10: when no other-libraries folder is configured and the
primary probe reports at least one imported library other than the probed
one, the classification indexes `OtherLibrariesFolders[0]` on an empty
list and panics (`none`), instead of classifying the dependency as
locally-provided — and so does the whole loop iteration. -/
theorem c10_empty_roots_panic (force exampleFlag : Bool) (st : RunState)
    (job : LibraryJob) (i : Nat)
    (hfind : indexJsonContains st.catalog job.realName job.version = some i)
    (hskip : ¬(st.cache job.name = true ∧ force = false))
    (hdep : ∃ d ∈ job.primary.imported, d.realName ≠ job.realName) :
    classifyImports job.realName [] ([], []) job.primary.imported = none ∧
    stepLibrary [] force exampleFlag st job = none := by
  have hnone : classifyImports job.realName [] ([], []) job.primary.imported = none := by
    apply classifyImports_nil_roots
    rcases hdep with ⟨d, hd, hne⟩
    exact ⟨d, hd, hne, by simp, by simp⟩
  refine ⟨hnone, ?_⟩
  unfold stepLibrary
  split
  · rename_i hn
    rw [hn] at hfind
    exact absurd hfind (by simp)
  · rw [if_neg hskip, hnone]

/-- Witness for C10: a probe with one foreign dependency and an empty
`-libraries` configuration panics. -/
theorem c10_empty_roots_panic_witness :
    classifyImports "Lib" [] ([], []) [⟨"Dep", "/x/Dep"⟩] = none ∧
    stepLibrary [] false false ⟨[⟨"Lib", "1.0.0", []⟩], fun _ => false, []⟩
      ⟨"Lib", "Lib", "1.0.0", ["avr"], ⟨[⟨"Dep", "/x/Dep"⟩], true, ""⟩, []⟩ = none := by
  exact c10_empty_roots_panic false false
    ⟨[⟨"Lib", "1.0.0", []⟩], fun _ => false, []⟩
    ⟨"Lib", "Lib", "1.0.0", ["avr"], ⟨[⟨"Dep", "/x/Dep"⟩], true, ""⟩, []⟩
    0 (by decide) (by decide) ⟨⟨"Dep", "/x/Dep"⟩, by decide, by decide⟩

/-- Claim C4 counterexample: the selector is not total — on a library
record whose declared architecture list is empty, the selection block
evaluates `library.Archs[0]` and panics instead of producing a profile,
so "always produces a target profile and has no failure conditions"
fails as stated. -/
theorem c4_selector_counterexample :
    selectFQBN initialFQBN "SomeLib" [] = none := rfl

/-- Claim C4 (amended): for every library record with a nonempty
architecture-tag list the selector produces a profile, equal to
last-match-wins evaluation of the fixed ordered rule table (default
fallback, the `"*"`/`"avr"` rule, the name-keyword rules, then the
`"sam"`/`"samd"`/`"arc32"`/`"esp8266"` rules); the architecture tags
evaluated last take final precedence when matched. -/
theorem c4_selector_last_match_wins (prev name : String) (archs : List String)
    (h : archs ≠ []) :
    selectFQBN prev name archs = some (lastMatchWins profileRules prev (name, archs)) ∧
    ("esp8266" ∈ archs → selectFQBN prev name archs =
      some "esp8266:esp8266:nodemcuv2:CpuFrequency=80,UploadSpeed=115200,FlashSize=4M3M") ∧
    ("esp8266" ∉ archs → "arc32" ∈ archs → selectFQBN prev name archs =
      some "Intel:arc32:arduino_101") ∧
    ("esp8266" ∉ archs → "arc32" ∉ archs → "samd" ∈ archs →
      selectFQBN prev name archs = some "arduino:samd:mkr1000") ∧
    ("esp8266" ∉ archs → "arc32" ∉ archs → "samd" ∉ archs → "sam" ∈ archs →
      selectFQBN prev name archs = some "arduino:sam:arduino_due_x_dbg") := by
  cases archs with
  | nil => exact absurd rfl h
  | cons a0 rest =>
    refine ⟨selectFQBN_eq_lastMatchWins prev name (a0 :: rest) h, ?_, ?_, ?_, ?_⟩
    · intro h1
      simp [selectFQBN, h1]
    · intro h1 h2
      simp [selectFQBN, h1, h2]
    · intro h1 h2 h3
      simp [selectFQBN, h1, h2, h3]
    · intro h1 h2 h3 h4
      simp [selectFQBN, h1, h2, h3, h4]

/-- Witness for the amended C4 at a record whose tags match both `"sam"`
and `"esp8266"`: the last-evaluated tag wins. -/
theorem c4_selector_witness :
    selectFQBN "arduino:avr:uno" "SomeLib" ["sam", "esp8266"] =
      some "esp8266:esp8266:nodemcuv2:CpuFrequency=80,UploadSpeed=115200,FlashSize=4M3M" :=
  (c4_selector_last_match_wins "arduino:avr:uno" "SomeLib" ["sam", "esp8266"]
    (by decide)).2.1 (by decide)

/-- Claim C3 counterexample: with force-rebuild set, a library present in
the catalog but not among the libraries the builder discovered on disk is
not reprocessed — the loop iterates the discovered libraries, so a run
over an empty discovered list leaves the catalog entry untouched and
probes nothing, refuting "every library present in the Catalog is
reprocessed". -/
theorem c3_skip_counterexample :
    runLoop ["/libs"] true false ⟨[⟨"Lib", "1.0.0", ["Old"]⟩], fun _ => false, []⟩ [] =
      some ⟨[⟨"Lib", "1.0.0", ["Old"]⟩], fun _ => false, []⟩ := rfl

/-- Claim C3 (amended): a library marked processed in the cache is
skipped when force-rebuild is unset — a run over libraries all marked
processed changes nothing; with force-rebuild set, every **discovered**
library present in the catalog is reprocessed regardless of cache
content, and its cache and catalog entries are overwritten. -/
theorem c3_cache_skip_force (roots : List String) (exampleFlag : Bool)
    (st : RunState) (jobs : List LibraryJob) :
    (∀ job : LibraryJob, st.cache job.name = true →
       stepLibrary roots false exampleFlag st job = some st) ∧
    ((∀ job ∈ jobs, st.cache job.name = true) →
       runLoop roots false exampleFlag st jobs = some st) ∧
    (∀ stF, runLoop roots true exampleFlag st jobs = some stF →
       ∀ job ∈ jobs, (indexJsonContains st.catalog job.realName job.version).isSome →
         job.name ∈ stF.probed ∧ stF.cache job.name = true) ∧
    (∀ (root : String) (rs : List String) (job : LibraryJob) (i : Nat)
       (entry : IndexLibrary),
       indexJsonContains st.catalog job.realName job.version = some i →
       st.catalog.get? i = some entry →
       stepLibrary (root :: rs) true exampleFlag st job =
         some { catalog := st.catalog.set i { entry with requires :=
                  (classifyPure job.realName root ([], []) (allImports exampleFlag job)).1 }
              , cache := fun n => if n = job.name then true else st.cache n
              , probed := st.probed ++ [job.name] }) := by
  refine ⟨fun job hc => stepLibrary_skip roots exampleFlag st job hc,
    fun hall => runLoop_skip_all roots exampleFlag jobs st hall,
    fun stF hrun => runLoop_force roots exampleFlag jobs st stF hrun,
    fun root rs job i entry hfind hget =>
      stepLibrary_process root rs true exampleFlag st job i entry hfind hget (by simp)⟩

/-- Witness for the amended C3: a cache-marked library is skipped without
force; with force, a discovered catalog library ends probed and marked. -/
theorem c3_cache_skip_force_witness :
    runLoop ["/libs"] false false ⟨[⟨"Lib", "1.0.0", []⟩], fun _ => true, []⟩
      [⟨"Lib", "Lib", "1.0.0", ["avr"], ⟨[], true, ""⟩, []⟩] =
      some ⟨[⟨"Lib", "1.0.0", []⟩], fun _ => true, []⟩ ∧
    ("Lib" ∈ (["Lib"] : List String) ∧
      (fun n => if n = "Lib" then true else false) "Lib" = true) := by
  constructor
  · exact (c3_cache_skip_force ["/libs"] false
      ⟨[⟨"Lib", "1.0.0", []⟩], fun _ => true, []⟩
      [⟨"Lib", "Lib", "1.0.0", ["avr"], ⟨[], true, ""⟩, []⟩]).2.1
      (fun j _ => rfl)
  · exact (c3_cache_skip_force ["/libs"] false
      ⟨[⟨"Lib", "1.0.0", []⟩], fun _ => false, []⟩
      [⟨"Lib", "Lib", "1.0.0", ["avr"], ⟨[], true, ""⟩, []⟩]).2.2.1
      ⟨[⟨"Lib", "1.0.0", []⟩], fun n => if n = "Lib" then true else false, ["Lib"]⟩
      rfl
      ⟨"Lib", "Lib", "1.0.0", ["avr"], ⟨[], true, ""⟩, []⟩
      (by simp) (by decide)

/-- Claim C6: at startup an absent processed-cache file yields the empty
cache and the run proceeds; a present but malformed cache file makes the
process exit with the (nonzero) fatal code before the probing loop is
reached — `runMain` sequences the loop strictly after the cache load, so
an `exited` result means no library was probed. -/
theorem c6_cache_startup (parseCache : String → Option (String → Bool))
    (parseIndex : String → Option (List IndexLibrary))
    (indexFile : Option String) (roots : List String)
    (force exampleFlag : Bool) (jobs : List LibraryJob) (s : String) :
    (loadProcessedCache none parseCache = .ok (fun _ => false) ∧
     runMain none parseCache indexFile parseIndex roots force exampleFlag jobs =
       runWithCache (fun _ => false) indexFile parseIndex roots force exampleFlag jobs) ∧
    (parseCache s = none →
      runMain (some s) parseCache indexFile parseIndex roots force exampleFlag jobs =
        .exited fatalExitCode ∧ fatalExitCode ≠ 0) := by
  refine ⟨⟨rfl, rfl⟩, fun hp => ⟨?_, by decide⟩⟩
  unfold runMain loadProcessedCache
  simp only [hp]

/-- Witness for C6 with a decoder that rejects the cache bytes. -/
theorem c6_cache_startup_witness :
    runMain (some "corrupt") (fun _ => none) (some "[]") (fun _ => some [])
      ["/libs"] false false [] = .exited fatalExitCode ∧ fatalExitCode ≠ 0 :=
  (c6_cache_startup (fun _ => none) (fun _ => some []) (some "[]")
    ["/libs"] false false [] "corrupt").2 rfl

/-- Claim C7: on the first termination signal the watcher writes the
marshalled in-memory catalog to the catalog file and exits with code 2,
distinct from the code 1 used for malformed input and missing mandatory
configuration — for the catalog of any state the loop can be in,
including part-way through the job list. -/
theorem c7_interrupt_flush (marshal : List IndexLibrary → String)
    (roots : List String) (force exampleFlag : Bool)
    (st0 st : RunState) (jobs : List LibraryJob)
    (_hreach : runLoop roots force exampleFlag st0 jobs = some st) :
    (signalHandler marshal st.catalog).1 = marshal st.catalog ∧
    (signalHandler marshal st.catalog).2 = interruptExitCode ∧
    interruptExitCode ≠ fatalExitCode ∧ interruptExitCode ≠ 0 :=
  ⟨rfl, rfl, by decide, by decide⟩

/-- Witness for C7 at the state reached after zero iterations. -/
theorem c7_interrupt_flush_witness :
    (signalHandler (fun _ => "bytes") [⟨"Lib", "1.0.0", []⟩]).2 = interruptExitCode ∧
    interruptExitCode ≠ fatalExitCode := by
  have h := c7_interrupt_flush (fun _ => "bytes") ["/libs"] false false
    ⟨[⟨"Lib", "1.0.0", []⟩], fun _ => false, []⟩
    ⟨[⟨"Lib", "1.0.0", []⟩], fun _ => false, []⟩ [] rfl
  exact ⟨h.2.1, h.2.2.1⟩

/-- Claim C8: along any completed loop, cache entries once true are never
reverted (the cache only grows), and every library whose probe was
attempted — compile success or not — has its cache entry set to true. -/
theorem c8_cache_monotone_marks (roots : List String) (force exampleFlag : Bool)
    (st0 stF : RunState) (jobs : List LibraryJob)
    (hrun : runLoop roots force exampleFlag st0 jobs = some stF) :
    (∀ n, st0.cache n = true → stF.cache n = true) ∧
    ((∀ n ∈ st0.probed, st0.cache n = true) → ∀ n ∈ stF.probed, stF.cache n = true) := by
  obtain ⟨hc, _, _, hm⟩ := runLoop_facts roots force exampleFlag jobs st0 stF hrun
  refine ⟨hc, fun hinv n hn => ?_⟩
  rcases hm n hn with h | h
  · exact hc n (hinv n h)
  · exact h

/-- Witness for C8: a probe whose compile fails still marks the library
processed. -/
theorem c8_cache_monotone_marks_witness :
    runLoop ["/libs"] false false ⟨[⟨"Lib", "1.0.0", []⟩], fun _ => false, []⟩
      [⟨"Lib", "Lib", "1.0.0", ["avr"],
        ⟨[⟨"Dep", "/libs/Dep"⟩], false, "compile error"⟩, []⟩] =
      some ⟨[⟨"Lib", "1.0.0", ["Dep"]⟩],
            fun n => if n = "Lib" then true else false, ["Lib"]⟩ ∧
    (fun n => if n = "Lib" then true else false) "Lib" = true := by
  constructor
  · rfl
  · exact (c8_cache_monotone_marks ["/libs"] false false
      ⟨[⟨"Lib", "1.0.0", []⟩], fun _ => false, []⟩
      ⟨[⟨"Lib", "1.0.0", ["Dep"]⟩], fun n => if n = "Lib" then true else false, ["Lib"]⟩
      [⟨"Lib", "Lib", "1.0.0", ["avr"],
        ⟨[⟨"Dep", "/libs/Dep"⟩], false, "compile error"⟩, []⟩] rfl).2
      (by simp) "Lib" (by simp)

theorem findFilesInFolder_node (sourcePath extension : String) (recurse : Bool)
    (nm : String) (files : List String) (subs : List FSDir) :
    findFilesInFolder sourcePath extension recurse (.node nm files subs) =
      (files.filter (fun f => goExt f = extension)).map (fun f => sourcePath ++ "/" ++ f)
        ++ (if recurse then
              (subs.map (fun sub =>
                findFilesInFolder (sourcePath ++ "/" ++ sub.name) extension recurse sub)).flatten
            else []) := by
  rw [findFilesInFolder]
  rw [List.attach_map_val subs
    (fun sub => findFilesInFolder (sourcePath ++ "/" ++ sub.name) extension recurse sub)]

theorem includedHeaders_of_hit (confident : String → String → Bool)
    (headers : List String) (libName : String) (h : String)
    (hmem : h ∈ headers) (hc : confident (goBase h) libName = true) :
    includedHeaders confident headers libName =
      (headers.filter (fun x => confident (goBase x) libName)).map goBase := by
  have hne : (headers.filter (fun x => confident (goBase x) libName)).map goBase ≠ [] := by
    intro heq
    rw [List.map_eq_nil_iff] at heq
    exact absurd (heq ▸ List.mem_filter.mpr ⟨hmem, hc⟩) (List.not_mem_nil h)
  unfold includedHeaders
  cases hfil : (headers.filter (fun x => confident (goBase x) libName)).map goBase with
  | nil => exact absurd hfil hne
  | cons a b => simp only [hfil]

theorem includedHeaders_fallback (confident : String → String → Bool)
    (headers : List String) (libName : String) (hd : String) (rest : List String)
    (hh : headers = hd :: rest)
    (hall : ∀ h ∈ headers, confident (goBase h) libName = false) :
    includedHeaders confident headers libName = [goBase hd] := by
  have hnil : (headers.filter (fun x => confident (goBase x) libName)).map goBase = [] := by
    rw [List.filter_eq_nil_iff.mpr (fun a ha => by simp [hall a ha]), List.map_nil]
  subst hh
  unfold includedHeaders
  simp only [hnil]

/-- Claim C5: every header found under the library folder whose base name
passes the similarity threshold test is included in the synthetic sketch;
when no header passes, exactly the first header in traversal order
(files before subfolders, subfolders in listing order, as
`findFilesInFolder` recurses) is included. -/
theorem c5_header_selection (confident : String → String → Bool)
    (tree : FSDir) (folder libName : String) :
    (∀ h ∈ findFilesInFolder folder ".h" true tree,
       confident (goBase h) libName = true →
         goBase h ∈ includedHeaders confident
           (findFilesInFolder folder ".h" true tree) libName ∧
         goContains (includeHeadersFromLibraryFolder confident tree folder libName)
           ("#include \"" ++ goBase h ++ "\"\n") = true) ∧
    (∀ (hd : String) (rest : List String),
       findFilesInFolder folder ".h" true tree = hd :: rest →
       (∀ h ∈ findFilesInFolder folder ".h" true tree,
          confident (goBase h) libName = false) →
       includedHeaders confident (findFilesInFolder folder ".h" true tree) libName =
         [goBase hd]) := by
  constructor
  · intro h hmem hc
    have hmm : goBase h ∈ includedHeaders confident
        (findFilesInFolder folder ".h" true tree) libName := by
      rw [includedHeaders_of_hit confident _ libName h hmem hc]
      exact List.mem_map.mpr ⟨h, List.mem_filter.mpr ⟨hmem, hc⟩, rfl⟩
    refine ⟨hmm, ?_⟩
    apply goContains_of_infix
    rcases renderIncludes_infix (goBase h) _ hmm with ⟨u, v, huv⟩
    refine ⟨"\n".toList ++ u, v, ?_⟩
    show "\n".toList ++ u ++ ("#include \"" ++ goBase h ++ "\"\n").toList ++ v =
      "\n".toList ++ (renderIncludes (includedHeaders confident
        (findFilesInFolder folder ".h" true tree) libName)).toList
    simp only [List.append_assoc] at huv ⊢
    rw [huv]
  · intro hd rest hh hall
    exact includedHeaders_fallback confident _ libName hd rest hh hall

/-- Witness for C5 on a concrete tree with a confidently matching header
and, with an always-rejecting metric, the first-header fallback. -/
theorem c5_header_selection_witness :
    ("Foo.h" ∈ includedHeaders (fun b _ => b == "Foo.h")
        (findFilesInFolder "/lib" ".h" true
          (FSDir.node "lib" ["Foo.h", "readme.txt"] [FSDir.node "src" ["Bar.h"] []])) "Foo" ∧
      goContains (includeHeadersFromLibraryFolder (fun b _ => b == "Foo.h")
        (FSDir.node "lib" ["Foo.h", "readme.txt"] [FSDir.node "src" ["Bar.h"] []]) "/lib" "Foo")
        ("#include \"Foo.h\"\n") = true) ∧
    includedHeaders (fun _ _ => false)
      (findFilesInFolder "/lib" ".h" true
        (FSDir.node "lib" ["Foo.h", "readme.txt"] [FSDir.node "src" ["Bar.h"] []])) "Foo" =
      ["Foo.h"] := by
  have hfiles : findFilesInFolder "/lib" ".h" true
      (FSDir.node "lib" ["Foo.h", "readme.txt"] [FSDir.node "src" ["Bar.h"] []]) =
      ["/lib/Foo.h", "/lib/src/Bar.h"] := by
    simp only [findFilesInFolder_node, List.map_cons, List.map_nil, FSDir.name]
    decide
  constructor
  · exact (c5_header_selection (fun b _ => b == "Foo.h")
      (FSDir.node "lib" ["Foo.h", "readme.txt"] [FSDir.node "src" ["Bar.h"] []])
      "/lib" "Foo").1 "/lib/Foo.h" (by rw [hfiles]; decide) (by decide)
  · exact (c5_header_selection (fun _ _ => false)
      (FSDir.node "lib" ["Foo.h", "readme.txt"] [FSDir.node "src" ["Bar.h"] []])
      "/lib" "Foo").2 "/lib/Foo.h" ["/lib/src/Bar.h"] hfiles (fun _ _ => rfl)

/-- Claim C9, evaluated at the failing input: with the examples flag on,
each failing example's error text is appended to the per-library error
list and the pass keeps probing the remaining examples (the dependency
found by the third example is still classified after two failures) — but
the summary line renders `string(len(errors_examples))` as the single
rune U+0002, not the decimal count "2" the claim describes. -/
theorem c9_example_pass_summary :
    examplePass "Lib" ["/libs"] (["P"], []) []
      [⟨[⟨"E1", "/libs/E1"⟩], false, "err1"⟩,
       ⟨[], false, "err2"⟩,
       ⟨[⟨"E3", "/core/E3"⟩], true, ""⟩] =
      some ((["P", "E1"], ["E3"]), ["err1", "err2"]) ∧
    exampleSummary "Lib" ["P", "E1"] ["E3"] ["err1", "err2"] "arduino:avr:micro" =
      "Examples for Lib depends on: [P E1] provided by lib manager and [E3] provided by cores or builtin but \x02 failed to compile on arduino:avr:micro\n" ∧
    goContains (exampleSummary "Lib" ["P", "E1"] ["E3"] ["err1", "err2"] "arduino:avr:micro")
      "2 failed" = false := by
  refine ⟨by decide, by decide, by decide⟩
